import Mathlib

/-!
# game_physics.c : collision and movement kernels

A shallow embedding of `src/game_physics.c` and the properties of it that the
specification states.

Modelling conventions.

* C `int` values are mathematical integers (`Int`): the arithmetic of the C code
  is exact as long as no signed overflow occurs, and signed overflow is undefined
  behaviour in C, so there is nothing else to model.
* A Python object is modelled by what the C-API calls used in the source can
  observe of it.  `PyObject_GetAttrString` returns either an object or `NULL`;
  an attribute is therefore an `Option`, with `none` for `NULL`.
* A function of the module is modelled by the value that the C function returns
  once `PyArg_ParseTuple` has succeeded; the error indicator of the interpreter,
  which the source never reads or clears, is not part of the model.
* Objects in a list are modelled by value; a list stands for pairwise distinct
  objects, each with its own `rect` and `vel` objects (no aliasing between list
  entries).
* C `double` values are idealised as exact numbers: rationals (`ℚ`) where only
  products and the conversion to `int` are used, and an arbitrary linearly
  ordered field together with its square-root function for the vector kernel.
-/

namespace GamePhysics

/-! ## Data model -/

/-- Rect structure of the source (`typedef struct { int x, y, w, h; } Rect;`). -/
structure Rect where
  x : Int
  y : Int
  w : Int
  h : Int
  deriving DecidableEq, Repr

/-- Vector2 structure of the source (`typedef struct { double x, y; } Vector2;`),
over the number type `F` that stands for `double`. -/
structure Vector2 (F : Type) where
  x : F
  y : F
  deriving DecidableEq, Repr

/-- A Python value as seen through `PyLong_AsLong` and `PyFloat_AsDouble`:
a Python `int`, a Python `float`, or an object of any other type. -/
inductive PyVal where
  | int (n : Int)
  | float (d : ℚ)
  | other
  deriving DecidableEq, Repr

/-- The object behind a `rect` attribute: the results of
`PyObject_GetAttrString(rect, "x" | "y" | "w" | "h")`, `none` when the call
returns `NULL`. -/
structure PyRect where
  x : Option PyVal
  y : Option PyVal
  w : Option PyVal
  h : Option PyVal
  deriving DecidableEq, Repr

/-- The object behind a `vel` attribute: the results of
`PyObject_GetAttrString(vel, "x" | "y")`. -/
structure PyVel where
  x : Option PyVal
  y : Option PyVal
  deriving DecidableEq, Repr

/-- A bullet or target object: the results of
`PyObject_GetAttrString(obj, "rect")` and `PyObject_GetAttrString(obj, "vel")`. -/
structure PyEntity where
  rect : Option PyRect
  vel : Option PyVel
  deriving DecidableEq, Repr

/-- The C-API function `PyLong_AsLong` followed by the cast to `int`: the value of a
Python `int` (taken to lie in the range of `int`, as the fields of a `pygame.Rect`
do); `-1` (with an error set) for a `NULL` argument and for an object that is not an
integer. -/
def PyLong_AsLong : Option PyVal → Int
  | some (PyVal.int n) => n
  | _ => -1

/-- The C-API function `PyFloat_AsDouble`: the value of a Python `float`, a Python
`int` converted to `double`, and `-1.0` (with an error set) for any other object. -/
def PyFloat_AsDouble : PyVal → ℚ
  | PyVal.float d => d
  | PyVal.int n => (n : ℚ)
  | PyVal.other => -1

/-- The C conversion `(int)d` of a `double`: the fractional part is discarded. -/
def truncate (d : ℚ) : Int := Int.tdiv d.num d.den

/-- A pygame-style rect object holding the four integer fields of `r`. -/
def PyRect.ofRect (r : Rect) : PyRect :=
  ⟨some (PyVal.int r.x), some (PyVal.int r.y), some (PyVal.int r.w), some (PyVal.int r.h)⟩

/-- A readable entity (bullet or target) of `check_bullet_collisions_c`: its `rect`
attribute is a rect object with four integer fields; the `vel` attribute, which that
function never reads, is arbitrary. -/
structure Entity where
  rect : Rect
  vel : Option PyVel
  deriving DecidableEq, Repr

/-- The Python object of a readable entity. -/
def Entity.toPy (e : Entity) : PyEntity :=
  ⟨some (PyRect.ofRect e.rect), e.vel⟩

/-- A readable bullet of `update_bullets_c`: a rect with four integer fields and a
velocity object with two float components. -/
structure Bullet where
  rect : Rect
  vx : ℚ
  vy : ℚ
  deriving DecidableEq, Repr

/-- The Python object of a readable bullet. -/
def Bullet.toPy (b : Bullet) : PyEntity :=
  ⟨some (PyRect.ofRect b.rect), some ⟨some (PyVal.float b.vx), some (PyVal.float b.vy)⟩⟩

/-- An obstacle entry that the specification calls readable: each of `x`, `y`, `w`,
`h` is present and is a valid integer. -/
def PyRect.isReadable (o : PyRect) : Bool :=
  match o.x, o.y, o.w, o.h with
  | some (PyVal.int _), some (PyVal.int _), some (PyVal.int _), some (PyVal.int _) => true
  | _, _, _, _ => false

/-- An obstacle entry with none of the attributes `x`, `y`, `w`, `h` missing. -/
def PyRect.hasAttrs (o : PyRect) : Bool :=
  o.x.isSome && o.y.isSome && o.w.isSome && o.h.isSome

/-! ## rect_collide -/

/-- Source `rect_collide`: fast rect-rect collision detection. -/
def rect_collide (a b : Rect) : Bool :=
  !(decide (a.x + a.w < b.x) || decide (b.x + b.w < a.x) ||
    decide (a.y + a.h < b.y) || decide (b.y + b.h < a.y))

/-! ## can_move_rect_c -/

/-- The four attribute reads of one obstacle in `can_move_rect_c`: `none` when one
of the attributes is `NULL` (the entry is skipped with `continue`), otherwise the
`Rect other` filled through `PyLong_AsLong`. -/
def read_obstacle (other_rect : PyRect) : Option Rect :=
  match other_rect.x, other_rect.y, other_rect.w, other_rect.h with
  | some x_attr, some y_attr, some w_attr, some h_attr =>
    some ⟨PyLong_AsLong (some x_attr), PyLong_AsLong (some y_attr),
          PyLong_AsLong (some w_attr), PyLong_AsLong (some h_attr)⟩
  | _, _, _, _ => none

/-- The obstacle loop of `can_move_rect_c`: `false` at the first obstacle that
collides with `test_rect`, `true` when the list is exhausted. -/
def can_move_rect_loop (test_rect : Rect) : List PyRect → Bool
  | [] => true
  | other_rect :: rest =>
    match read_obstacle other_rect with
    | none => can_move_rect_loop test_rect rest
    | some other =>
      if rect_collide test_rect other then false
      else can_move_rect_loop test_rect rest

/-- Source `can_move_rect_c`, after argument parsing: the boolean it returns. -/
def can_move_rect_c (rect_x rect_y rect_w rect_h dx dy : Int)
    (other_rects_list : List PyRect) (screen_width screen_height : Int) : Bool :=
  let test_rect : Rect := ⟨rect_x + dx, rect_y + dy, rect_w, rect_h⟩
  if test_rect.x < 0 ∨ test_rect.x + test_rect.w > screen_width ∨
     test_rect.y < 0 ∨ test_rect.y + test_rect.h > screen_height then
    false
  else
    can_move_rect_loop test_rect other_rects_list

/-! ## update_bullets_c -/

/-- One iteration of the loop of `update_bullets_c` on the object `bullet`: the
object after the iteration (its rect has `x` and `y` rewritten by
`PyObject_SetAttrString` when it stays on screen) and whether the iteration
appended it to `result`. Every `continue` and the offscreen case leave the object
as it was. -/
def update_bullets_iter (dt : ℚ) (screen_width screen_height : Int)
    (bullet : PyEntity) : PyEntity × Bool :=
  match bullet.rect, bullet.vel with
  | some rect, some vel =>
    match vel.x, vel.y with
    | some vel_x, some vel_y =>
      let vx := PyFloat_AsDouble vel_x
      let vy := PyFloat_AsDouble vel_y
      match rect.x, rect.y with
      | some rect_x, some rect_y =>
        let x := PyLong_AsLong (some rect_x) + truncate (vx * dt)
        let y := PyLong_AsLong (some rect_y) + truncate (vy * dt)
        match rect.w, rect.h with
        | some rect_w, some rect_h =>
          let w := PyLong_AsLong (some rect_w)
          let h := PyLong_AsLong (some rect_h)
          let offscreen := decide (x + w < 0) || decide (x > screen_width) ||
                           decide (y + h < 0) || decide (y > screen_height)
          if !offscreen then
            (⟨some ⟨some (PyVal.int x), some (PyVal.int y), rect.w, rect.h⟩, some vel⟩, true)
          else (bullet, false)
        | _, _ => (bullet, false)
      | _, _ => (bullet, false)
    | _, _ => (bullet, false)
  | _, _ => (bullet, false)

/-- Source `update_bullets_c`, after argument parsing. The first component is the
list `bullets_list` as the caller sees it after the call (the same objects, the
retained ones moved in place); the second component is the returned list `result`,
which holds the retained objects in the order in which they were appended. -/
def update_bullets_c (bullets_list : List PyEntity) (dt : ℚ)
    (screen_width screen_height : Int) : List PyEntity × List PyEntity :=
  match bullets_list with
  | [] => ([], [])
  | bullet :: rest =>
    let it := update_bullets_iter dt screen_width screen_height bullet
    let tl := update_bullets_c rest dt screen_width screen_height
    (it.1 :: tl.1, if it.2 then it.1 :: tl.2 else tl.2)

/-- The offscreen predicate of the specification of advanceAndCull, on a readable
bullet: `newX + w < 0 OR newX > width OR newY + h < 0 OR newY > height` with
`newX = x + truncate(vx * dt)` and `newY = y + truncate(vy * dt)`. -/
def Bullet.offscreen (dt : ℚ) (width height : Int) (b : Bullet) : Bool :=
  decide (b.rect.x + truncate (b.vx * dt) + b.rect.w < 0 ∨
          b.rect.x + truncate (b.vx * dt) > width ∨
          b.rect.y + truncate (b.vy * dt) + b.rect.h < 0 ∨
          b.rect.y + truncate (b.vy * dt) > height)

/-- The bullet of the specification of advanceAndCull after its move: position
`(x + truncate(vx * dt), y + truncate(vy * dt))`, size and velocity as before. -/
def Bullet.moved (dt : ℚ) (b : Bullet) : Bullet :=
  ⟨⟨b.rect.x + truncate (b.vx * dt), b.rect.y + truncate (b.vy * dt), b.rect.w, b.rect.h⟩,
   b.vx, b.vy⟩

/-! ## check_bullet_collisions_c -/

/-- The four field reads of `check_bullet_collisions_c`,
`(int)PyLong_AsLong(PyObject_GetAttrString(rect, ...))`, which are not checked for
`NULL`. -/
def read_rect (rect : PyRect) : Rect :=
  ⟨PyLong_AsLong rect.x, PyLong_AsLong rect.y, PyLong_AsLong rect.w, PyLong_AsLong rect.h⟩

/-- The inner loop of `check_bullet_collisions_c` for one bullet rect: the target
at which the loop reaches `break`, if any. Targets without a `rect` attribute are
skipped. -/
def first_collision (bullet_r : Rect) : List PyEntity → Option PyEntity
  | [] => none
  | target :: rest =>
    match target.rect with
    | none => first_collision bullet_r rest
    | some target_rect =>
      if rect_collide bullet_r (read_rect target_rect) then some target
      else first_collision bullet_r rest

/-- Source `check_bullet_collisions_c`, after argument parsing: the returned list of
`(bullet, target)` tuples. Bullets without a `rect` attribute are skipped. -/
def check_bullet_collisions_c (bullets_list targets_list : List PyEntity) :
    List (PyEntity × PyEntity) :=
  match bullets_list with
  | [] => []
  | bullet :: rest =>
    match bullet.rect with
    | none => check_bullet_collisions_c rest targets_list
    | some bullet_rect =>
      match first_collision (read_rect bullet_rect) targets_list with
      | some target => (bullet, target) :: check_bullet_collisions_c rest targets_list
      | none => check_bullet_collisions_c rest targets_list

/-- Reference definition of findHits, from the wording of the specification: the
bullets in input order, each bullet that overlaps some target paired with the first
target (in target-list order) that it overlaps, the other bullets dropped. -/
def findHits_spec (bullets targets : List Entity) : List (Entity × Entity) :=
  bullets.filterMap fun b =>
    (targets.find? fun t => rect_collide b.rect t.rect).map fun t => (b, t)

/-- An entity of `check_bullet_collisions_c` with a `rect` attribute. -/
def PyEntity.hasRect (e : PyEntity) : Bool := e.rect.isSome

/-- An entity that the specification calls well formed: it has a `rect`, and each
of `x`, `y`, `w`, `h` of that rect is present and is a valid integer. -/
def PyEntity.wellFormed (e : PyEntity) : Bool :=
  match e.rect with
  | some r => r.isReadable
  | none => false

/-! ## Vector kernel

The kernel is written over a linearly ordered field `F` standing for `double`, and
takes the library function `sqrt` of `math.h` as an argument. -/

section Kernel

variable {F : Type} [LinearOrderedField F]

/-- Source `normalize_vector`: the vector that `*v` holds after the call. -/
def normalize_vector (sqrt : F → F) (v : Vector2 F) : Vector2 F :=
  let len := sqrt (v.x * v.x + v.y * v.y)
  if len > 1 / 10000 then ⟨v.x / len, v.y / len⟩ else v

/-- Source `vec_toward_internal`: normalized vector from point A to point B. -/
def vec_toward_internal (sqrt : F → F) (ax ay bx b_y : F) : Vector2 F :=
  let result : Vector2 F := ⟨bx - ax, b_y - ay⟩
  normalize_vector sqrt result

/-- Source `vec_toward_c`, after argument parsing: the returned tuple `(x, y)`. -/
def vec_toward_c (sqrt : F → F) (ax ay bx b_y : F) : F × F :=
  let v := vec_toward_internal sqrt ax ay bx b_y
  (v.x, v.y)

/-- Source `distance_c`, after argument parsing. -/
def distance_c (sqrt : F → F) (x1 y1 x2 y2 : F) : F :=
  let dx := x2 - x1
  let dy := y2 - y1
  sqrt (dx * dx + dy * dy)

/-- Source `distance_squared_c`, after argument parsing. -/
def distance_squared_c (x1 y1 x2 y2 : F) : F :=
  let dx := x2 - x1
  let dy := y2 - y1
  dx * dx + dy * dy

/-- The magnitude of a vector, `sqrt(x*x + y*y)`. -/
def Vector2.magnitude (sqrt : F → F) (v : Vector2 F) : F :=
  sqrt (v.x * v.x + v.y * v.y)

/-- The property of an exact square root that the numerical claims rely on. -/
def IsExactSqrt (sqrt : F → F) : Prop :=
  ∀ x : F, 0 ≤ x → 0 ≤ sqrt x ∧ sqrt x * sqrt x = x

end Kernel

/-! ## Properties of rect_collide -/

/-- The result of `rect_collide` as four non-strict inequalities. -/
theorem rect_collide_iff (a b : Rect) :
    rect_collide a b = true ↔
      b.x ≤ a.x + a.w ∧ a.x ≤ b.x + b.w ∧ b.y ≤ a.y + a.h ∧ a.y ≤ b.y + b.h := by
  simp only [rect_collide, Bool.not_eq_true', Bool.or_eq_false_iff, decide_eq_false_iff_not,
    not_lt]
  tauto

/-- The negative result of `rect_collide` as a disjunction of strict inequalities. -/
theorem rect_collide_eq_false_iff (a b : Rect) :
    rect_collide a b = false ↔
      (a.x + a.w < b.x ∨ b.x + b.w < a.x ∨ a.y + a.h < b.y ∨ b.y + b.h < a.y) := by
  simp only [rect_collide, Bool.not_eq_false', Bool.or_eq_true, decide_eq_true_eq]
  tauto

/-- C5: `rect_collide a b` is true exactly when none of `a.x+a.w < b.x`,
`b.x+b.w < a.x`, `a.y+a.h < b.y`, `b.y+b.h < a.y` holds. -/
theorem rect_collide_reference (a b : Rect) :
    rect_collide a b = true ↔
      ¬ (a.x + a.w < b.x ∨ b.x + b.w < a.x ∨ a.y + a.h < b.y ∨ b.y + b.h < a.y) := by
  rw [← rect_collide_eq_false_iff]
  cases rect_collide a b <;> simp

/-- C6, as stated, fails: the rects `{0,0,10,10}` and `{10,100,5,5}` have non-negative
sizes and touch in x (`a.x + a.w = b.x`), yet `rect_collide` returns false because
they are disjoint in y. -/
theorem rect_collide_touching_counterexample :
    rect_collide ⟨0, 0, 10, 10⟩ ⟨10, 100, 5, 5⟩ = false ∧
    ¬ (∀ a b : Rect, 0 ≤ a.w → 0 ≤ a.h → 0 ≤ b.w → 0 ≤ b.h → a.x + a.w = b.x →
        rect_collide a b = true) := by
  refine ⟨by decide, fun h => ?_⟩
  have := h ⟨0, 0, 10, 10⟩ ⟨10, 100, 5, 5⟩ (by decide) (by decide) (by decide) (by decide)
    (by decide)
  revert this
  decide

/-- C6, amended: for rects `a` and `b` with non-negative `w` and `h` whose x-edges
touch (`a.x + a.w = b.x`) and whose closed y-intervals intersect
(`b.y ≤ a.y + a.h` and `a.y ≤ b.y + b.h`), `rect_collide a b` returns true. -/
theorem rect_collide_touching (a b : Rect) (haw : 0 ≤ a.w) (_hah : 0 ≤ a.h)
    (hbw : 0 ≤ b.w) (_hbh : 0 ≤ b.h) (htouch : a.x + a.w = b.x)
    (hy1 : b.y ≤ a.y + a.h) (hy2 : a.y ≤ b.y + b.h) :
    rect_collide a b = true := by
  rw [rect_collide_iff]
  refine ⟨by omega, by omega, hy1, hy2⟩

/-- Witness of `rect_collide_touching`: `{0,0,10,10}` and `{10,10,5,5}` touch in a
corner and collide. -/
theorem rect_collide_touching_witness :
    rect_collide ⟨0, 0, 10, 10⟩ ⟨10, 10, 5, 5⟩ = true :=
  rect_collide_touching ⟨0, 0, 10, 10⟩ ⟨10, 10, 5, 5⟩ (by decide) (by decide) (by decide)
    (by decide) (by decide) (by decide) (by decide)

/-- C7: for rects with non-negative `w` and `h`, `rect_collide a b` is true exactly
when the closed x-intervals `[a.x, a.x+a.w]`, `[b.x, b.x+b.w]` intersect and the closed
y-intervals `[a.y, a.y+a.h]`, `[b.y, b.y+b.h]` intersect, that is, exactly when some
integer point lies in both closed rectangles. -/
theorem rect_collide_closed_intervals (a b : Rect) (haw : 0 ≤ a.w) (hah : 0 ≤ a.h)
    (hbw : 0 ≤ b.w) (hbh : 0 ≤ b.h) :
    (rect_collide a b = true ↔
      (∃ px : Int, a.x ≤ px ∧ px ≤ a.x + a.w ∧ b.x ≤ px ∧ px ≤ b.x + b.w) ∧
      (∃ py : Int, a.y ≤ py ∧ py ≤ a.y + a.h ∧ b.y ≤ py ∧ py ≤ b.y + b.h)) ∧
    (rect_collide a b = true ↔
      ∃ px py : Int, (a.x ≤ px ∧ px ≤ a.x + a.w ∧ a.y ≤ py ∧ py ≤ a.y + a.h) ∧
        (b.x ≤ px ∧ px ≤ b.x + b.w ∧ b.y ≤ py ∧ py ≤ b.y + b.h)) := by
  rw [rect_collide_iff]
  constructor
  · constructor
    · rintro ⟨h1, h2, h3, h4⟩
      refine ⟨⟨max a.x b.x, ?_, ?_, ?_, ?_⟩, ⟨max a.y b.y, ?_, ?_, ?_, ?_⟩⟩ <;> omega
    · rintro ⟨⟨px, h1, h2, h3, h4⟩, ⟨py, h5, h6, h7, h8⟩⟩
      refine ⟨?_, ?_, ?_, ?_⟩ <;> omega
  · constructor
    · rintro ⟨h1, h2, h3, h4⟩
      refine ⟨max a.x b.x, max a.y b.y, ⟨?_, ?_, ?_, ?_⟩, ⟨?_, ?_, ?_, ?_⟩⟩ <;> omega
    · rintro ⟨px, py, ⟨h1, h2, h3, h4⟩, ⟨h5, h6, h7, h8⟩⟩
      refine ⟨?_, ?_, ?_, ?_⟩ <;> omega

/-- Witness of `rect_collide_closed_intervals` at `{0,0,10,10}` and `{10,10,5,5}`,
which share exactly the point `(10, 10)`. -/
theorem rect_collide_closed_intervals_witness :
    rect_collide ⟨0, 0, 10, 10⟩ ⟨10, 10, 5, 5⟩ = true ∧
    ∃ px py : Int, ((0 : Int) ≤ px ∧ px ≤ 0 + 10 ∧ (0 : Int) ≤ py ∧ py ≤ 0 + 10) ∧
      ((10 : Int) ≤ px ∧ px ≤ 10 + 5 ∧ (10 : Int) ≤ py ∧ py ≤ 10 + 5) :=
  ⟨by decide,
   ((rect_collide_closed_intervals ⟨0, 0, 10, 10⟩ ⟨10, 10, 5, 5⟩ (by decide) (by decide)
      (by decide) (by decide)).2).1 (by decide)⟩

/-- C8: `rect_collide` is symmetric, for all integer fields, negative sizes
included. -/
theorem rect_collide_symm (a b : Rect) : rect_collide a b = rect_collide b a := by
  rw [Bool.eq_iff_iff, rect_collide_iff, rect_collide_iff]
  tauto

/-- Reflexivity of `rect_collide` on one rect. -/
theorem rect_collide_self_iff (a : Rect) :
    rect_collide a a = true ↔ 0 ≤ a.w ∧ 0 ≤ a.h := by
  rw [rect_collide_iff]
  constructor
  · rintro ⟨h1, _, h3, _⟩
    constructor <;> omega
  · rintro ⟨h1, h2⟩
    refine ⟨?_, ?_, ?_, ?_⟩ <;> omega

/-! ## Properties of can_move_rect_c -/

/-- A rect object built from a `Rect` is read back as that `Rect`. -/
theorem read_obstacle_ofRect (r : Rect) : read_obstacle (PyRect.ofRect r) = some r := by
  cases r
  rfl

/-- The obstacle loop returns true exactly when no entry that is read collides. -/
theorem can_move_rect_loop_iff (t : Rect) (l : List PyRect) :
    can_move_rect_loop t l = true ↔
      ∀ o ∈ l, ∀ r, read_obstacle o = some r → rect_collide t r = false := by
  induction l with
  | nil => simp [can_move_rect_loop]
  | cons o rest ih =>
    cases hro : read_obstacle o with
    | none => simp [can_move_rect_loop, hro, ih]
    | some r =>
      cases hc : rect_collide t r with
      | true =>
        simp only [can_move_rect_loop, hro, hc, if_true, List.mem_cons, forall_eq_or_imp,
          Option.some.injEq, forall_eq']
        simp
      | false =>
        simp [can_move_rect_loop, hro, hc, ih]

/-- The value of `can_move_rect_c` as a conjunction of the bounds test and the
obstacle loop. -/
theorem can_move_rect_c_iff (x y w h dx dy : Int) (l : List PyRect) (sw sh : Int) :
    can_move_rect_c x y w h dx dy l sw sh = true ↔
      (0 ≤ x + dx ∧ x + dx + w ≤ sw ∧ 0 ≤ y + dy ∧ y + dy + h ≤ sh) ∧
      can_move_rect_loop ⟨x + dx, y + dy, w, h⟩ l = true := by
  unfold can_move_rect_c
  simp only []
  split
  · rename_i hb
    constructor
    · intro hf
      cases hf
    · rintro ⟨⟨h1, h2, h3, h4⟩, _⟩
      omega
  · rename_i hb
    constructor
    · intro hl
      refine ⟨⟨?_, ?_, ?_, ?_⟩, hl⟩ <;> omega
    · exact fun hl => hl.2

/-- C1: on readable obstacle rects, `can_move_rect_c` returns true if and only if
the translated rect `test = (x+dx, y+dy, w, h)` satisfies `test.x >= 0`,
`test.x+test.w <= width`, `test.y >= 0`, `test.y+test.h <= height` and no obstacle of
the list collides with `test`; and the move of `{0,0,10,10}` by `(5,0)` against the
obstacle `{5,0,10,10}` in bounds `(100,100)` is refused. -/
theorem can_move_rect_c_spec :
    (∀ (x y w h dx dy : Int) (obstacles : List Rect) (width height : Int),
      can_move_rect_c x y w h dx dy (obstacles.map PyRect.ofRect) width height = true ↔
        (x + dx ≥ 0 ∧ x + dx + w ≤ width ∧ y + dy ≥ 0 ∧ y + dy + h ≤ height) ∧
        ¬ ∃ o ∈ obstacles, rect_collide ⟨x + dx, y + dy, w, h⟩ o = true) ∧
    can_move_rect_c 0 0 10 10 5 0 [PyRect.ofRect ⟨5, 0, 10, 10⟩] 100 100 = false := by
  refine ⟨?_, by decide⟩
  intro x y w h dx dy obstacles width height
  rw [can_move_rect_c_iff, can_move_rect_loop_iff]
  simp only [List.mem_map, forall_exists_index, and_imp, forall_apply_eq_imp_iff₂,
    read_obstacle_ofRect, Option.some.injEq, forall_eq', ge_iff_le, not_exists, not_and,
    Bool.not_eq_true]

/-- C9: whenever the translated rect is not contained in `[0,width] x [0,height]`
(some point of the closed translated rect lies outside), `can_move_rect_c` returns
false for every obstacle list, readable or not. -/
theorem can_move_rect_c_out_of_bounds (x y w h dx dy : Int) (l : List PyRect)
    (width height : Int) (_hw : 0 ≤ w) (_hh : 0 ≤ h)
    (hout : ¬ (∀ px py : Int,
      x + dx ≤ px → px ≤ x + dx + w → y + dy ≤ py → py ≤ y + dy + h →
        0 ≤ px ∧ px ≤ width ∧ 0 ≤ py ∧ py ≤ height)) :
    can_move_rect_c x y w h dx dy l width height = false := by
  rw [← Bool.not_eq_true, can_move_rect_c_iff]
  rintro ⟨⟨h1, h2, h3, h4⟩, _⟩
  apply hout
  intro px py hx1 hx2 hy1 hy2
  refine ⟨?_, ?_, ?_, ?_⟩ <;> omega

/-- Witness of `can_move_rect_c_out_of_bounds`: `{0,0,10,10}` moved by `(-1,0)` in
bounds `(100,100)` contains the point `(-1,0)`, and the move is refused with no
obstacle and with an obstacle that cannot be read. -/
theorem can_move_rect_c_out_of_bounds_witness :
    can_move_rect_c 0 0 10 10 (-1) 0 [] 100 100 = false ∧
    can_move_rect_c 0 0 10 10 (-1) 0 [⟨none, some PyVal.other, none, none⟩] 100 100 = false :=
  ⟨can_move_rect_c_out_of_bounds 0 0 10 10 (-1) 0 [] 100 100 (by decide) (by decide)
      (fun hall => absurd (hall (-1) 0 (by decide) (by decide) (by decide) (by decide)).1
        (by decide)),
   can_move_rect_c_out_of_bounds 0 0 10 10 (-1) 0 [⟨none, some PyVal.other, none, none⟩]
      100 100 (by decide) (by decide)
      (fun hall => absurd (hall (-1) 0 (by decide) (by decide) (by decide) (by decide)).1
        (by decide))⟩

/-- C13, as stated, fails: an obstacle whose `x` is not an integer (and whose other
fields are `0, 5, 5`) is not skipped but read as `{-1,0,5,5}`; it blocks the subject
`{0,0,10,10}`, which can move once the entry is removed. -/
theorem can_move_rect_c_unreadable_counterexample :
    PyRect.isReadable ⟨some PyVal.other, some (PyVal.int 0), some (PyVal.int 5),
      some (PyVal.int 5)⟩ = false ∧
    can_move_rect_c 0 0 10 10 0 0
      [⟨some PyVal.other, some (PyVal.int 0), some (PyVal.int 5), some (PyVal.int 5)⟩]
      100 100 = false ∧
    can_move_rect_c 0 0 10 10 0 0
      (List.filter PyRect.isReadable
        [⟨some PyVal.other, some (PyVal.int 0), some (PyVal.int 5), some (PyVal.int 5)⟩])
      100 100 = true := by
  decide

/-- An entry is skipped by the loop exactly when one of its attributes is missing. -/
theorem read_obstacle_eq_none_iff (o : PyRect) :
    read_obstacle o = none ↔ o.hasAttrs = false := by
  obtain ⟨x, y, w, h⟩ := o
  cases x <;> cases y <;> cases w <;> cases h <;> simp [read_obstacle, PyRect.hasAttrs]

/-- C13, amended: an obstacle entry with a missing `x`, `y`, `w` or `h` attribute is
silently skipped: `can_move_rect_c` returns the same boolean as on the obstacle list
with every such entry removed. -/
theorem can_move_rect_c_skips_missing (x y w h dx dy : Int) (l : List PyRect)
    (width height : Int) :
    can_move_rect_c x y w h dx dy l width height =
      can_move_rect_c x y w h dx dy (l.filter PyRect.hasAttrs) width height := by
  rw [Bool.eq_iff_iff, can_move_rect_c_iff, can_move_rect_c_iff, can_move_rect_loop_iff,
    can_move_rect_loop_iff]
  apply and_congr_right
  intro _
  constructor
  · intro hall o ho r hr
    exact hall o (List.mem_of_mem_filter ho) r hr
  · intro hall o ho r hr
    refine hall o (List.mem_filter.2 ⟨ho, ?_⟩) r hr
    by_contra hne
    rw [Bool.not_eq_true, ← read_obstacle_eq_none_iff, hr] at hne
    cases hne

/-- C16: over any two obstacle lists, `can_move_rect_c` on the concatenation is the
conjunction of the results on the parts; hence adding obstacles never turns a false
result into true, and the result is invariant under permutation of the list. -/
theorem can_move_rect_c_append :
    (∀ (x y w h dx dy : Int) (o1 o2 : List PyRect) (width height : Int),
      can_move_rect_c x y w h dx dy (o1 ++ o2) width height =
        (can_move_rect_c x y w h dx dy o1 width height &&
         can_move_rect_c x y w h dx dy o2 width height)) ∧
    (∀ (x y w h dx dy : Int) (o1 o2 : List PyRect) (width height : Int),
      can_move_rect_c x y w h dx dy o1 width height = false →
      can_move_rect_c x y w h dx dy (o1 ++ o2) width height = false ∧
      can_move_rect_c x y w h dx dy (o2 ++ o1) width height = false) ∧
    (∀ (x y w h dx dy : Int) (o1 o2 : List PyRect) (width height : Int),
      o1.Perm o2 →
      can_move_rect_c x y w h dx dy o1 width height =
        can_move_rect_c x y w h dx dy o2 width height) := by
  have happ : ∀ (x y w h dx dy : Int) (o1 o2 : List PyRect) (width height : Int),
      can_move_rect_c x y w h dx dy (o1 ++ o2) width height =
        (can_move_rect_c x y w h dx dy o1 width height &&
         can_move_rect_c x y w h dx dy o2 width height) := by
    intro x y w h dx dy o1 o2 width height
    rw [Bool.eq_iff_iff, Bool.and_eq_true, can_move_rect_c_iff, can_move_rect_c_iff,
      can_move_rect_c_iff, can_move_rect_loop_iff, can_move_rect_loop_iff,
      can_move_rect_loop_iff]
    simp only [List.mem_append]
    constructor
    · rintro ⟨hb, hall⟩
      exact ⟨⟨hb, fun o ho => hall o (Or.inl ho)⟩, ⟨hb, fun o ho => hall o (Or.inr ho)⟩⟩
    · rintro ⟨⟨hb, h1⟩, ⟨_, h2⟩⟩
      exact ⟨hb, fun o ho => ho.elim (h1 o) (h2 o)⟩
  refine ⟨happ, ?_, ?_⟩
  · intro x y w h dx dy o1 o2 width height hf
    rw [happ, happ, hf]
    simp
  · intro x y w h dx dy o1 o2 width height hp
    rw [Bool.eq_iff_iff, can_move_rect_c_iff, can_move_rect_c_iff, can_move_rect_loop_iff,
      can_move_rect_loop_iff]
    apply and_congr_right
    intro _
    constructor
    · intro hall o ho
      exact hall o (hp.mem_iff.2 ho)
    · intro hall o ho
      exact hall o (hp.mem_iff.1 ho)

/-- C17: `rect_collide a a` is true if and only if `a.w >= 0` and `a.h >= 0`;
consequently, for a subject of non-negative size, `can_move_rect_c` returns false
whenever the obstacle list contains a rect equal to the translated subject rect. -/
theorem rect_collide_refl_iff :
    (∀ a : Rect, rect_collide a a = true ↔ a.w ≥ 0 ∧ a.h ≥ 0) ∧
    (∀ (x y w h dx dy : Int) (l : List PyRect) (width height : Int),
      0 ≤ w → 0 ≤ h → PyRect.ofRect ⟨x + dx, y + dy, w, h⟩ ∈ l →
      can_move_rect_c x y w h dx dy l width height = false) ∧
    (∀ (x y w h : Int) (l : List PyRect) (width height : Int),
      0 ≤ w → 0 ≤ h → PyRect.ofRect ⟨x, y, w, h⟩ ∈ l →
      can_move_rect_c x y w h 0 0 l width height = false) := by
  have hmain : ∀ (x y w h dx dy : Int) (l : List PyRect) (width height : Int),
      0 ≤ w → 0 ≤ h → PyRect.ofRect ⟨x + dx, y + dy, w, h⟩ ∈ l →
      can_move_rect_c x y w h dx dy l width height = false := by
    intro x y w h dx dy l width height hw hh hmem
    rw [← Bool.not_eq_true, can_move_rect_c_iff, can_move_rect_loop_iff]
    rintro ⟨_, hall⟩
    have hfalse := hall _ hmem _ (read_obstacle_ofRect _)
    have htrue := (rect_collide_self_iff ⟨x + dx, y + dy, w, h⟩).2 ⟨hw, hh⟩
    rw [htrue] at hfalse
    cases hfalse
  refine ⟨fun a => rect_collide_self_iff a, hmain, ?_⟩
  intro x y w h l width height hw hh hmem
  have := hmain x y w h 0 0 l width height hw hh (by simpa using hmem)
  exact this

/-! ## Properties of update_bullets_c -/

/-- The conversion `(int)d` rounds toward zero: it is the floor of a non-negative
value and the ceiling of a non-positive one. -/
theorem truncate_toward_zero (q : ℚ) :
    (0 ≤ q → truncate q = ⌊q⌋) ∧ (q ≤ 0 → truncate q = ⌈q⌉) := by
  constructor
  · intro hq
    rw [Rat.floor_def]
    exact Int.tdiv_eq_ediv (Rat.num_nonneg.2 hq) (Int.ofNat_nonneg _)
  · intro hq
    have hneg : 0 ≤ -q := neg_nonneg.2 hq
    have h1 : ⌈q⌉ = -⌊-q⌋ := by rw [Int.floor_neg, neg_neg]
    rw [h1, Rat.floor_def, Rat.neg_den, Rat.neg_num]
    have h2 : (-q.num).tdiv (q.den : Int) = -q.num / (q.den : Int) :=
      Int.tdiv_eq_ediv (by rw [← Rat.neg_num]; exact Rat.num_nonneg.2 hneg)
        (Int.ofNat_nonneg _)
    rw [← h2, Int.neg_tdiv, neg_neg]
    rfl

/-- The conversion `(int)d` of zero is zero. -/
theorem truncate_zero : truncate 0 = 0 := by
  simp [truncate]

/-- One loop iteration on a readable bullet: dropped unchanged when offscreen,
moved and appended otherwise. -/
theorem update_bullets_iter_toPy (dt : ℚ) (sw sh : Int) (b : Bullet) :
    update_bullets_iter dt sw sh b.toPy =
      if b.offscreen dt sw sh then (b.toPy, false) else ((b.moved dt).toPy, true) := by
  obtain ⟨⟨x, y, w, h⟩, vx, vy⟩ := b
  simp only [update_bullets_iter, Bullet.toPy, PyRect.ofRect, PyFloat_AsDouble, PyLong_AsLong,
    Bullet.offscreen, Bullet.moved]
  by_cases hoff : (x + truncate (vx * dt) + w < 0 ∨ x + truncate (vx * dt) > sw ∨
      y + truncate (vy * dt) + h < 0 ∨ y + truncate (vy * dt) > sh)
  · simp only [hoff, decide_True, if_true]
    rcases hoff with h1 | h1 | h1 | h1 <;> simp [h1]
  · simp only [hoff, decide_False]
    push_neg at hoff
    obtain ⟨h1, h2, h3, h4⟩ := hoff
    simp [not_lt.2 h1, not_lt.2 h2, not_lt.2 h3, not_lt.2 h4]

/-- The list of objects after the call: every object after its own iteration. -/
theorem update_bullets_c_fst (l : List PyEntity) (dt : ℚ) (sw sh : Int) :
    (update_bullets_c l dt sw sh).1 = l.map fun e => (update_bullets_iter dt sw sh e).1 := by
  induction l with
  | nil => rfl
  | cons e rest ih => simp [update_bullets_c, ih]

/-- The returned list: the objects whose iteration appended them, after their
iteration, in input order. -/
theorem update_bullets_c_snd (l : List PyEntity) (dt : ℚ) (sw sh : Int) :
    (update_bullets_c l dt sw sh).2 =
      (l.filter fun e => (update_bullets_iter dt sw sh e).2).map
        fun e => (update_bullets_iter dt sw sh e).1 := by
  induction l with
  | nil => rfl
  | cons e rest ih =>
    cases hflag : (update_bullets_iter dt sw sh e).2 <;>
      simp [update_bullets_c, ih, hflag]

/-- The returned list is a sublist of the list of objects after the call. -/
theorem update_bullets_c_sublist (l : List PyEntity) (dt : ℚ) (sw sh : Int) :
    (update_bullets_c l dt sw sh).2.Sublist (update_bullets_c l dt sw sh).1 := by
  rw [update_bullets_c_fst, update_bullets_c_snd]
  exact (List.filter_sublist l).map _

/-- The returned list on readable bullets. -/
theorem update_bullets_c_snd_toPy (bs : List Bullet) (dt : ℚ) (sw sh : Int) :
    (update_bullets_c (bs.map Bullet.toPy) dt sw sh).2 =
      (bs.filter fun b => !b.offscreen dt sw sh).map fun b => (b.moved dt).toPy := by
  induction bs with
  | nil => rfl
  | cons b rest ih =>
    cases hoff : b.offscreen dt sw sh <;>
      simp [update_bullets_c, update_bullets_iter_toPy, hoff, ih]

/-- The list of objects after the call on readable bullets. -/
theorem update_bullets_c_fst_toPy (bs : List Bullet) (dt : ℚ) (sw sh : Int) :
    (update_bullets_c (bs.map Bullet.toPy) dt sw sh).1 =
      bs.map fun b => if b.offscreen dt sw sh then b.toPy else (b.moved dt).toPy := by
  induction bs with
  | nil => rfl
  | cons b rest ih =>
    cases hoff : b.offscreen dt sw sh <;>
      simp [update_bullets_c, update_bullets_iter_toPy, hoff, ih]

/-- C3: on readable bullets the returned list consists of exactly the input bullets
that are not offscreen at their new position, `NOT (newX + w < 0 OR newX > width OR
newY + h < 0 OR newY > height)` with `newX = x + truncate(vx*dt)` and
`newY = y + truncate(vy*dt)`, in input order; those bullets are a sublist of the
input, and the returned list is a sublist of the input list as it stands after the
call. The bullet `{0,0,5,5}` with velocity `(100,0)`, `dt = 1`, bounds `(50,50)` is
dropped. -/
theorem update_bullets_c_stable_filter :
    (∀ (bs : List Bullet) (dt : ℚ) (width height : Int),
      (update_bullets_c (bs.map Bullet.toPy) dt width height).2 =
        ((bs.filter fun b =>
            !decide (b.rect.x + truncate (b.vx * dt) + b.rect.w < 0 ∨
                     b.rect.x + truncate (b.vx * dt) > width ∨
                     b.rect.y + truncate (b.vy * dt) + b.rect.h < 0 ∨
                     b.rect.y + truncate (b.vy * dt) > height)).map
          fun b => (b.moved dt).toPy) ∧
      (bs.filter fun b =>
            !decide (b.rect.x + truncate (b.vx * dt) + b.rect.w < 0 ∨
                     b.rect.x + truncate (b.vx * dt) > width ∨
                     b.rect.y + truncate (b.vy * dt) + b.rect.h < 0 ∨
                     b.rect.y + truncate (b.vy * dt) > height)).Sublist bs ∧
      (update_bullets_c (bs.map Bullet.toPy) dt width height).2.Sublist
        (update_bullets_c (bs.map Bullet.toPy) dt width height).1) ∧
    (update_bullets_c [Bullet.toPy ⟨⟨0, 0, 5, 5⟩, 100, 0⟩] 1 50 50).2 = [] := by
  have hgen : ∀ (bs : List Bullet) (dt : ℚ) (width height : Int),
      (update_bullets_c (bs.map Bullet.toPy) dt width height).2 =
        ((bs.filter fun b =>
            !decide (b.rect.x + truncate (b.vx * dt) + b.rect.w < 0 ∨
                     b.rect.x + truncate (b.vx * dt) > width ∨
                     b.rect.y + truncate (b.vy * dt) + b.rect.h < 0 ∨
                     b.rect.y + truncate (b.vy * dt) > height)).map
          fun b => (b.moved dt).toPy) := by
    intro bs dt width height
    rw [update_bullets_c_snd_toPy]
    rfl
  refine ⟨fun bs dt width height =>
    ⟨hgen bs dt width height, List.filter_sublist _, update_bullets_c_sublist _ _ _ _⟩, ?_⟩
  have h := hgen [⟨⟨0, 0, 5, 5⟩, 100, 0⟩] 1 50 50
  simp only [List.map_cons, List.map_nil] at h
  rw [h]
  have ht : truncate (100 : ℚ) = 100 := by simp [truncate]
  simp [ht, truncate_zero]

/-- Exact values of the conversion `(int)d` at `-1.5` and `0.9`. -/
theorem truncate_examples : truncate (-3 / 2) = -1 ∧ truncate (9 / 10) = 0 := by
  constructor
  · rw [(truncate_toward_zero (-3 / 2)).2 (by norm_num), Int.ceil_eq_iff]
    norm_num
  · rw [(truncate_toward_zero (9 / 10)).1 (by norm_num), Int.floor_eq_iff]
    norm_num

/-- C4: every readable bullet that is retained (not offscreen at its new position)
stands, after the call, at `(x + truncate(vx*dt), y + truncate(vy*dt))` with `w`, `h`
and velocity unchanged, both in the input list and as a member of the returned
list; `truncate` rounds toward zero (floor of a non-negative product, ceiling of a
non-positive one), so that `-1.5` gives `-1` and `0.9` gives `0`. -/
theorem update_bullets_c_moves_survivors (bs : List Bullet) (dt : ℚ)
    (width height : Int) (i : Nat) (hi : i < bs.length)
    (hon : (bs.get ⟨i, hi⟩).offscreen dt width height = false) :
    ((update_bullets_c (bs.map Bullet.toPy) dt width height).1[i]? =
      some (Bullet.toPy
        ⟨⟨(bs.get ⟨i, hi⟩).rect.x + truncate ((bs.get ⟨i, hi⟩).vx * dt),
          (bs.get ⟨i, hi⟩).rect.y + truncate ((bs.get ⟨i, hi⟩).vy * dt),
          (bs.get ⟨i, hi⟩).rect.w, (bs.get ⟨i, hi⟩).rect.h⟩,
         (bs.get ⟨i, hi⟩).vx, (bs.get ⟨i, hi⟩).vy⟩) ∧
    Bullet.toPy
        ⟨⟨(bs.get ⟨i, hi⟩).rect.x + truncate ((bs.get ⟨i, hi⟩).vx * dt),
          (bs.get ⟨i, hi⟩).rect.y + truncate ((bs.get ⟨i, hi⟩).vy * dt),
          (bs.get ⟨i, hi⟩).rect.w, (bs.get ⟨i, hi⟩).rect.h⟩,
         (bs.get ⟨i, hi⟩).vx, (bs.get ⟨i, hi⟩).vy⟩ ∈
      (update_bullets_c (bs.map Bullet.toPy) dt width height).2) ∧
    (∀ q : ℚ, (0 ≤ q → truncate q = ⌊q⌋) ∧ (q ≤ 0 → truncate q = ⌈q⌉)) ∧
    truncate (-3 / 2) = -1 ∧ truncate (9 / 10) = 0 := by
  refine ⟨⟨?_, ?_⟩, truncate_toward_zero, truncate_examples⟩
  · rw [update_bullets_c_fst_toPy, List.getElem?_map, List.getElem?_eq_getElem hi]
    simp only [List.get_eq_getElem] at hon
    simp [hon, Bullet.moved]
  · rw [update_bullets_c_snd_toPy]
    refine List.mem_map.2 ⟨bs.get ⟨i, hi⟩, List.mem_filter.2 ⟨List.get_mem _ _ _, ?_⟩, rfl⟩
    simpa using hon

/-- The bullet `{10,10,5,5}` with velocity `(-1.5, 0.9)` is on screen after a step
`dt = 1` in bounds `(50,50)`. -/
theorem offscreen_example :
    Bullet.offscreen 1 50 50 ⟨⟨10, 10, 5, 5⟩, -3 / 2, 9 / 10⟩ = false := by
  simp [Bullet.offscreen, truncate_examples.1, truncate_examples.2]

/-- Witness of `update_bullets_c_moves_survivors`: the bullet `{10,10,5,5}` with
velocity `(-1.5, 0.9)`, `dt = 1`, bounds `(50,50)` ends at `(9, 10)`. -/
theorem update_bullets_c_moves_survivors_witness :
    (update_bullets_c [Bullet.toPy ⟨⟨10, 10, 5, 5⟩, -3 / 2, 9 / 10⟩] 1 50 50).1[0]? =
      some (Bullet.toPy ⟨⟨9, 10, 5, 5⟩, -3 / 2, 9 / 10⟩) := by
  have h := (update_bullets_c_moves_survivors [⟨⟨10, 10, 5, 5⟩, -3 / 2, 9 / 10⟩] 1 50 50 0
    (by decide) offscreen_example).1.1
  simpa [truncate_examples.1, truncate_examples.2] using h

/-- C11: the call leaves every object that it does not append exactly as it was. The
list after the call holds each object after its own loop iteration, the returned list
holds those whose iteration appended them; an iteration that does not append returns
its object unchanged, and one that appends rewrites only `x` and `y` of the rect. In
particular a readable bullet that is offscreen at its new position is, after the
call, the object it was before. -/
theorem update_bullets_c_frame :
    (∀ (l : List PyEntity) (dt : ℚ) (sw sh : Int),
      (update_bullets_c l dt sw sh).1 = l.map (fun e => (update_bullets_iter dt sw sh e).1) ∧
      (update_bullets_c l dt sw sh).2 =
        (l.filter fun e => (update_bullets_iter dt sw sh e).2).map
          fun e => (update_bullets_iter dt sw sh e).1) ∧
    (∀ (dt : ℚ) (sw sh : Int) (e : PyEntity),
      (update_bullets_iter dt sw sh e).2 = false → (update_bullets_iter dt sw sh e).1 = e) ∧
    (∀ (dt : ℚ) (sw sh : Int) (e : PyEntity),
      (update_bullets_iter dt sw sh e).2 = true →
      ∃ (rect : PyRect) (vel : PyVel) (x y : Int), e.rect = some rect ∧ e.vel = some vel ∧
        (update_bullets_iter dt sw sh e).1 =
          ⟨some ⟨some (PyVal.int x), some (PyVal.int y), rect.w, rect.h⟩, some vel⟩) ∧
    (∀ (bs : List Bullet) (dt : ℚ) (width height : Int) (i : Nat) (hi : i < bs.length),
      (bs.get ⟨i, hi⟩).offscreen dt width height = true →
      (update_bullets_c (bs.map Bullet.toPy) dt width height).1[i]? =
        some (bs.get ⟨i, hi⟩).toPy) := by
  refine ⟨fun l dt sw sh => ⟨update_bullets_c_fst l dt sw sh, update_bullets_c_snd l dt sw sh⟩,
    ?_, ?_, ?_⟩
  · intro dt sw sh e
    unfold update_bullets_iter
    repeat' split
    all_goals first
      | (intro _; rfl)
      | (dsimp only; split_ifs <;> simp)
  · intro dt sw sh e
    unfold update_bullets_iter
    repeat' split
    all_goals first
      | (intro habs; cases habs)
      | (dsimp only; split_ifs <;> simp_all)
  · intro bs dt width height i hi hoff
    rw [update_bullets_c_fst_toPy, List.getElem?_map, List.getElem?_eq_getElem hi]
    simp only [List.get_eq_getElem] at hoff
    simp [hoff]

/-- A step with `dt = 0` moves no readable bullet. -/
theorem Bullet.moved_zero (b : Bullet) : b.moved 0 = b := by
  obtain ⟨⟨x, y, w, h⟩, vx, vy⟩ := b
  simp [Bullet.moved, truncate_zero]

/-- The offscreen test after a step with `dt = 0` is the test on the current rect. -/
theorem Bullet.offscreen_zero (width height : Int) (b : Bullet) :
    b.offscreen 0 width height =
      decide (b.rect.x + b.rect.w < 0 ∨ b.rect.x > width ∨
              b.rect.y + b.rect.h < 0 ∨ b.rect.y > height) := by
  simp [Bullet.offscreen, truncate_zero]

/-- C18: with `dt = 0`, on readable bullets, `update_bullets_c` leaves every bullet
where it is and returns exactly the bullets whose current rect is not offscreen;
applied again with `dt = 0` to its own result it returns that result unchanged. -/
theorem update_bullets_c_dt_zero (bs : List Bullet) (width height : Int) :
    (update_bullets_c (bs.map Bullet.toPy) 0 width height).1 = bs.map Bullet.toPy ∧
    (update_bullets_c (bs.map Bullet.toPy) 0 width height).2 =
      (bs.filter fun b =>
        !decide (b.rect.x + b.rect.w < 0 ∨ b.rect.x > width ∨
                 b.rect.y + b.rect.h < 0 ∨ b.rect.y > height)).map Bullet.toPy ∧
    update_bullets_c (update_bullets_c (bs.map Bullet.toPy) 0 width height).2 0 width height =
      ((update_bullets_c (bs.map Bullet.toPy) 0 width height).2,
       (update_bullets_c (bs.map Bullet.toPy) 0 width height).2) := by
  have hfst : ∀ cs : List Bullet,
      (update_bullets_c (cs.map Bullet.toPy) 0 width height).1 = cs.map Bullet.toPy := by
    intro cs
    rw [update_bullets_c_fst_toPy]
    apply List.map_congr_left
    intro b _
    simp [Bullet.moved_zero]
  have hsnd : ∀ cs : List Bullet,
      (update_bullets_c (cs.map Bullet.toPy) 0 width height).2 =
        (cs.filter fun b =>
          !decide (b.rect.x + b.rect.w < 0 ∨ b.rect.x > width ∨
                   b.rect.y + b.rect.h < 0 ∨ b.rect.y > height)).map Bullet.toPy := by
    intro cs
    rw [update_bullets_c_snd_toPy]
    simp only [Bullet.moved_zero, Bullet.offscreen_zero]
  refine ⟨hfst bs, hsnd bs, ?_⟩
  rw [hsnd bs]
  refine Prod.ext (hfst _) ?_
  rw [hsnd, List.filter_filter]
  simp

/-! ## Properties of check_bullet_collisions_c -/

/-- A rect object built from a `Rect` is read back as that `Rect`. -/
theorem read_rect_ofRect (r : Rect) : read_rect (PyRect.ofRect r) = r := by
  cases r
  rfl

/-- The inner loop on readable targets finds the first target that collides. -/
theorem first_collision_toPy (br : Rect) (ts : List Entity) :
    first_collision br (ts.map Entity.toPy) =
      (ts.find? fun t => rect_collide br t.rect).map Entity.toPy := by
  induction ts with
  | nil => rfl
  | cons t rest ih =>
    cases hc : rect_collide br t.rect
    · simp only [List.map_cons, first_collision, Entity.toPy, read_rect_ofRect, hc,
        List.find?_cons]
      simpa [Entity.toPy] using ih
    · simp [first_collision, Entity.toPy, read_rect_ofRect, hc, List.find?_cons]

/-- The target found by the inner loop is a member of the target list, has a rect,
and that rect collides with the bullet rect. -/
theorem first_collision_some (br : Rect) (ts : List PyEntity) (t : PyEntity)
    (h : first_collision br ts = some t) :
    t ∈ ts ∧ ∃ tr, t.rect = some tr ∧ rect_collide br (read_rect tr) = true := by
  induction ts with
  | nil => simp [first_collision] at h
  | cons u rest ih =>
    unfold first_collision at h
    split at h
    · obtain ⟨h1, h2⟩ := ih h
      exact ⟨List.mem_cons_of_mem _ h1, h2⟩
    · rename_i tr htr
      split at h
      · rename_i hc
        cases h
        exact ⟨List.mem_cons_self _ _, tr, htr, hc⟩
      · obtain ⟨h1, h2⟩ := ih h
        exact ⟨List.mem_cons_of_mem _ h1, h2⟩

/-- C2: on readable bullets and targets, `check_bullet_collisions_c` returns exactly
the list of the reference definition: the bullets in input order, each bullet that
overlaps a target paired with the first target of the list that it overlaps (every
earlier target does not overlap it), the other bullets contributing nothing. A
bullet overlapping two targets is paired with the first only, and when no bullet
overlaps a target the result is empty. -/
theorem check_bullet_collisions_c_spec :
    (∀ bs ts : List Entity,
      check_bullet_collisions_c (bs.map Entity.toPy) (ts.map Entity.toPy) =
        (findHits_spec bs ts).map fun p => (p.1.toPy, p.2.toPy)) ∧
    (∀ (bs ts : List Entity) (b t : Entity), (b, t) ∈ findHits_spec bs ts →
      b ∈ bs ∧ rect_collide b.rect t.rect = true ∧
      ∃ before after, ts = before ++ t :: after ∧
        ∀ u ∈ before, rect_collide b.rect u.rect = false) ∧
    (∀ (b t1 t2 : Entity) (rest : List Entity),
      rect_collide b.rect t1.rect = true → rect_collide b.rect t2.rect = true →
      check_bullet_collisions_c [b.toPy] ((t1 :: t2 :: rest).map Entity.toPy) =
        [(b.toPy, t1.toPy)]) ∧
    (∀ bs ts : List Entity,
      (∀ b ∈ bs, ∀ t ∈ ts, rect_collide b.rect t.rect = false) →
      check_bullet_collisions_c (bs.map Entity.toPy) (ts.map Entity.toPy) = []) := by
  have hmain : ∀ bs ts : List Entity,
      check_bullet_collisions_c (bs.map Entity.toPy) (ts.map Entity.toPy) =
        (findHits_spec bs ts).map fun p => (p.1.toPy, p.2.toPy) := by
    intro bs ts
    induction bs with
    | nil => rfl
    | cons b rest ih =>
      have hstep : check_bullet_collisions_c ((b :: rest).map Entity.toPy)
          (ts.map Entity.toPy) =
          match first_collision b.rect (ts.map Entity.toPy) with
          | some target => (b.toPy, target) ::
              check_bullet_collisions_c (rest.map Entity.toPy) (ts.map Entity.toPy)
          | none => check_bullet_collisions_c (rest.map Entity.toPy) (ts.map Entity.toPy) := by
        simp [check_bullet_collisions_c, Entity.toPy, read_rect_ofRect]
      rw [hstep, first_collision_toPy, ih]
      cases hf : ts.find? fun t => rect_collide b.rect t.rect <;>
        simp [findHits_spec, List.filterMap_cons, hf]
  refine ⟨hmain, ?_, ?_, ?_⟩
  · intro bs ts b t hmem
    simp only [findHits_spec, List.mem_filterMap, Option.map_eq_some', Prod.mk.injEq] at hmem
    obtain ⟨b0, hb0, t0, hfind, rfl, rfl⟩ := hmem
    rw [List.find?_eq_some] at hfind
    obtain ⟨hc, before, after, hts, hbefore⟩ := hfind
    refine ⟨hb0, hc, before, after, hts, ?_⟩
    intro u hu
    simpa using hbefore u hu
  · intro b t1 t2 rest h1 _
    have := hmain [b] (t1 :: t2 :: rest)
    simp only [List.map_cons, List.map_nil] at this
    simp only [List.map_cons]
    rw [this]
    simp [findHits_spec, List.find?_cons, h1]
  · intro bs ts hno
    rw [hmain]
    have hnone : ∀ b ∈ bs, (ts.find? fun t => rect_collide b.rect t.rect) = none := by
      intro b hb
      rw [List.find?_eq_none]
      intro t ht
      simp [hno b hb t ht]
    simp only [findHits_spec, List.map_eq_nil_iff, List.filterMap_eq_nil_iff]
    intro b hb
    simp [hnone b hb]

/-- The bullets of the returned pairs form a sublist of the bullet list. -/
theorem check_bullet_collisions_c_fst (bullets targets : List PyEntity) :
    ((check_bullet_collisions_c bullets targets).map Prod.fst).Sublist bullets := by
  induction bullets with
  | nil => simp [check_bullet_collisions_c]
  | cons b rest ih =>
    unfold check_bullet_collisions_c
    split
    · exact ih.cons _
    · split
      · simpa using ih.cons₂ b
      · exact ih.cons _

/-- Every returned pair joins a bullet of the list with a target of the list whose
rects, as read by the code, collide. -/
theorem check_bullet_collisions_c_mem (bullets targets : List PyEntity) :
    ∀ p ∈ check_bullet_collisions_c bullets targets,
      p.1 ∈ bullets ∧ p.2 ∈ targets ∧
      ∃ br tr, p.1.rect = some br ∧ p.2.rect = some tr ∧
        rect_collide (read_rect br) (read_rect tr) = true := by
  induction bullets with
  | nil => simp [check_bullet_collisions_c]
  | cons b rest ih =>
    intro p hp
    unfold check_bullet_collisions_c at hp
    split at hp
    · obtain ⟨h1, h2⟩ := ih p hp
      exact ⟨List.mem_cons_of_mem _ h1, h2⟩
    · rename_i br hbr
      split at hp
      · rename_i t ht
        rcases List.mem_cons.1 hp with rfl | hp
        · obtain ⟨h1, tr, h2, h3⟩ := first_collision_some _ _ _ ht
          exact ⟨List.mem_cons_self _ _, h1, br, tr, hbr, h2, h3⟩
        · obtain ⟨h1, h2⟩ := ih p hp
          exact ⟨List.mem_cons_of_mem _ h1, h2⟩
      · obtain ⟨h1, h2⟩ := ih p hp
        exact ⟨List.mem_cons_of_mem _ h1, h2⟩

/-- C10: for all bullet and target lists, the first components of the returned
pairs form a sublist of the bullet list (so there are at most as many pairs as
bullets and no bullet position contributes twice), and every returned pair `(b, t)`
has `t` in the target list and the rects of `b` and `t`, as the code reads them,
colliding. -/
theorem check_bullet_collisions_c_sublist (bullets targets : List PyEntity) :
    ((check_bullet_collisions_c bullets targets).map Prod.fst).Sublist bullets ∧
    (check_bullet_collisions_c bullets targets).length ≤ bullets.length ∧
    ∀ p ∈ check_bullet_collisions_c bullets targets,
      p.1 ∈ bullets ∧ p.2 ∈ targets ∧
      ∃ br tr, p.1.rect = some br ∧ p.2.rect = some tr ∧
        rect_collide (read_rect br) (read_rect tr) = true := by
  refine ⟨check_bullet_collisions_c_fst bullets targets, ?_,
    check_bullet_collisions_c_mem bullets targets⟩
  simpa using (check_bullet_collisions_c_fst bullets targets).length_le

/-- C12, as stated, fails: a bullet whose rect has a non-integer `x` (read as `-1`),
and likewise a bullet whose rect lacks `x` altogether, is paired with the target
`{0,0,10,10}`, although the result on the lists without malformed entities is
empty. -/
theorem check_bullet_collisions_c_malformed_counterexample :
    PyEntity.wellFormed
      ⟨some ⟨some PyVal.other, some (PyVal.int 0), some (PyVal.int 5), some (PyVal.int 5)⟩,
        none⟩ = false ∧
    check_bullet_collisions_c
      [⟨some ⟨some PyVal.other, some (PyVal.int 0), some (PyVal.int 5), some (PyVal.int 5)⟩,
        none⟩]
      [Entity.toPy ⟨⟨0, 0, 10, 10⟩, none⟩] =
      [(⟨some ⟨some PyVal.other, some (PyVal.int 0), some (PyVal.int 5), some (PyVal.int 5)⟩,
          none⟩, Entity.toPy ⟨⟨0, 0, 10, 10⟩, none⟩)] ∧
    check_bullet_collisions_c
      (List.filter PyEntity.wellFormed
        [⟨some ⟨some PyVal.other, some (PyVal.int 0), some (PyVal.int 5), some (PyVal.int 5)⟩,
          none⟩])
      (List.filter PyEntity.wellFormed [Entity.toPy ⟨⟨0, 0, 10, 10⟩, none⟩]) = [] ∧
    PyEntity.wellFormed
      ⟨some ⟨none, some (PyVal.int 0), some (PyVal.int 5), some (PyVal.int 5)⟩, none⟩ = false ∧
    check_bullet_collisions_c
      [⟨some ⟨none, some (PyVal.int 0), some (PyVal.int 5), some (PyVal.int 5)⟩, none⟩]
      [Entity.toPy ⟨⟨0, 0, 10, 10⟩, none⟩] =
      [(⟨some ⟨none, some (PyVal.int 0), some (PyVal.int 5), some (PyVal.int 5)⟩, none⟩,
        Entity.toPy ⟨⟨0, 0, 10, 10⟩, none⟩)] := by
  refine ⟨by decide, by decide, by decide, by decide, by decide⟩

/-- The inner loop skips targets without a rect. -/
theorem first_collision_filter (br : Rect) (ts : List PyEntity) :
    first_collision br ts = first_collision br (ts.filter PyEntity.hasRect) := by
  induction ts with
  | nil => rfl
  | cons t rest ih =>
    cases hr : t.rect with
    | none => simp [first_collision, List.filter_cons, PyEntity.hasRect, hr, ih]
    | some tr =>
      by_cases hc : rect_collide br (read_rect tr) = true
      · simp [first_collision, List.filter_cons, PyEntity.hasRect, hr, hc]
      · simp [first_collision, List.filter_cons, PyEntity.hasRect, hr, hc, ih]

/-- C12, amended: a bullet or a target whose `rect` is missing is skipped: the result
of `check_bullet_collisions_c` equals its result on the two lists with every such
bullet and target removed. -/
theorem check_bullet_collisions_c_skips_missing (bullets targets : List PyEntity) :
    check_bullet_collisions_c bullets targets =
      check_bullet_collisions_c (bullets.filter PyEntity.hasRect)
        (targets.filter PyEntity.hasRect) := by
  induction bullets with
  | nil => rfl
  | cons b rest ih =>
    cases hr : b.rect with
    | none => simp [check_bullet_collisions_c, List.filter_cons, PyEntity.hasRect, hr, ih]
    | some br =>
      simp only [check_bullet_collisions_c, List.filter_cons, PyEntity.hasRect, hr,
        Option.isSome_some, if_true]
      rw [← first_collision_filter, ← ih]

/-! ## Properties of the vector kernel -/

section KernelProperties

variable {F : Type} [LinearOrderedField F]

/-- An exact square root vanishes exactly at zero on non-negative arguments. -/
theorem IsExactSqrt.eq_zero_iff {sqrt : F → F} (hs : IsExactSqrt sqrt) {x : F} (hx : 0 ≤ x) :
    sqrt x = 0 ↔ x = 0 := by
  constructor
  · intro h
    have := (hs x hx).2
    rw [h, mul_zero] at this
    exact this.symm
  · intro h
    have := (hs 0 le_rfl).2
    rw [h]
    exact mul_self_eq_zero.1 this

/-- An exact square root of a square of a non-negative number is that number. -/
theorem IsExactSqrt.sqrt_mul_self {sqrt : F → F} (hs : IsExactSqrt sqrt) {a : F}
    (ha : 0 ≤ a) : sqrt (a * a) = a := by
  obtain ⟨h0, h1⟩ := hs (a * a) (mul_self_nonneg a)
  exact (mul_self_inj h0 ha).1 h1

/-- The sum of squares under the square root of the kernel is non-negative. -/
theorem sum_sq_nonneg (a b : F) : 0 ≤ a * a + b * b :=
  add_nonneg (mul_self_nonneg a) (mul_self_nonneg b)

/-- C14: with an exact square root, `normalize_vector` turns a vector of magnitude
above `1e-4` into a vector of magnitude 1 that is a positive multiple of it, and
returns a vector of magnitude at most `1e-4` unchanged; `vec_toward_internal` is
`normalize_vector` of `b - a`, and from a point to itself it is `(0, 0)`. -/
theorem normalize_vector_spec (sqrt : F → F) (hs : IsExactSqrt sqrt) (v : Vector2 F) :
    (v.magnitude sqrt > 1 / 10000 →
      (normalize_vector sqrt v).magnitude sqrt = 1 ∧
      ∃ k : F, 0 < k ∧ normalize_vector sqrt v = ⟨k * v.x, k * v.y⟩) ∧
    (v.magnitude sqrt ≤ 1 / 10000 → normalize_vector sqrt v = v) ∧
    (∀ ax ay bx b_y : F,
      vec_toward_internal sqrt ax ay bx b_y = normalize_vector sqrt ⟨bx - ax, b_y - ay⟩ ∧
      vec_toward_c sqrt ax ay bx b_y =
        ((normalize_vector sqrt ⟨bx - ax, b_y - ay⟩).x,
         (normalize_vector sqrt ⟨bx - ax, b_y - ay⟩).y)) ∧
    (∀ ax ay : F, vec_toward_internal sqrt ax ay ax ay = ⟨0, 0⟩ ∧
      vec_toward_c sqrt ax ay ax ay = (0, 0)) := by
  have hzero : sqrt 0 = 0 := (hs.eq_zero_iff le_rfl).2 rfl
  have hsame : ∀ ax ay : F, vec_toward_internal sqrt ax ay ax ay = ⟨0, 0⟩ := by
    intro ax ay
    simp [vec_toward_internal, normalize_vector, hzero]
  refine ⟨?_, ?_, fun ax ay bx b_y => ⟨rfl, rfl⟩, fun ax ay => ⟨hsame ax ay, ?_⟩⟩
  · intro hmag
    obtain ⟨x, y⟩ := v
    simp only [Vector2.magnitude] at hmag
    obtain ⟨hlen0, hlen⟩ := hs (x * x + y * y) (sum_sq_nonneg x y)
    have hpos : 0 < sqrt (x * x + y * y) := lt_trans (by norm_num) hmag
    have hne : sqrt (x * x + y * y) ≠ 0 := ne_of_gt hpos
    have hnorm : normalize_vector sqrt ⟨x, y⟩ =
        ⟨x / sqrt (x * x + y * y), y / sqrt (x * x + y * y)⟩ := by
      simp only [normalize_vector]
      rw [if_pos hmag]
    rw [hnorm]
    constructor
    · simp only [Vector2.magnitude]
      have hsum : x / sqrt (x * x + y * y) * (x / sqrt (x * x + y * y)) +
          y / sqrt (x * x + y * y) * (y / sqrt (x * x + y * y)) = 1 * 1 := by
        field_simp
        rw [hlen]
      rw [hsum]
      exact hs.sqrt_mul_self zero_le_one
    · refine ⟨1 / sqrt (x * x + y * y), by positivity, ?_⟩
      simp only [Vector2.mk.injEq]
      constructor <;> field_simp
  · intro hmag
    simp only [Vector2.magnitude] at hmag
    simp only [normalize_vector]
    rw [if_neg (not_lt.2 hmag)]
  · simp [vec_toward_c, hsame]

/-- C15: with an exact square root, `distance_c` is the square root of
`distance_squared_c`, which is `(x2-x1)^2 + (y2-y1)^2` and non-negative; hence the
distance is non-negative, symmetric in its two points, and zero exactly when the
points are equal. -/
theorem distance_c_spec (sqrt : F → F) (hs : IsExactSqrt sqrt) (x1 y1 x2 y2 : F) :
    distance_c sqrt x1 y1 x2 y2 = sqrt (distance_squared_c x1 y1 x2 y2) ∧
    distance_squared_c x1 y1 x2 y2 = (x2 - x1) ^ 2 + (y2 - y1) ^ 2 ∧
    0 ≤ distance_squared_c x1 y1 x2 y2 ∧
    0 ≤ distance_c sqrt x1 y1 x2 y2 ∧
    distance_c sqrt x1 y1 x2 y2 = distance_c sqrt x2 y2 x1 y1 ∧
    (distance_c sqrt x1 y1 x2 y2 = 0 ↔ x1 = x2 ∧ y1 = y2) := by
  have hnn : 0 ≤ (x2 - x1) * (x2 - x1) + (y2 - y1) * (y2 - y1) := sum_sq_nonneg _ _
  refine ⟨rfl, ?_, hnn, (hs _ hnn).1, ?_, ?_⟩
  · simp only [distance_squared_c]
    ring
  · simp only [distance_c]
    congr 1
    ring
  · simp only [distance_c]
    rw [hs.eq_zero_iff hnn, mul_self_add_mul_self_eq_zero, sub_eq_zero, sub_eq_zero]
    constructor
    · rintro ⟨h1, h2⟩
      exact ⟨h1.symm, h2.symm⟩
    · rintro ⟨h1, h2⟩
      exact ⟨h1.symm, h2.symm⟩

/-- C19: `vec_toward` from `b` to `a` is the componentwise negation of `vec_toward`
from `a` to `b`, whatever the square-root function: both calls compute the same
magnitude and so take the same branch of `normalize_vector`. -/
theorem vec_toward_antisymm (sqrt : F → F) (ax ay bx b_y : F) :
    Vector2.magnitude sqrt ⟨ax - bx, ay - b_y⟩ = Vector2.magnitude sqrt ⟨bx - ax, b_y - ay⟩ ∧
    (vec_toward_internal sqrt bx b_y ax ay).x = -(vec_toward_internal sqrt ax ay bx b_y).x ∧
    (vec_toward_internal sqrt bx b_y ax ay).y = -(vec_toward_internal sqrt ax ay bx b_y).y ∧
    vec_toward_c sqrt bx b_y ax ay =
      (-(vec_toward_c sqrt ax ay bx b_y).1, -(vec_toward_c sqrt ax ay bx b_y).2) := by
  have harg : (ax - bx) * (ax - bx) + (ay - b_y) * (ay - b_y) =
      (bx - ax) * (bx - ax) + (b_y - ay) * (b_y - ay) := by ring
  have hx : (vec_toward_internal sqrt bx b_y ax ay).x =
      -(vec_toward_internal sqrt ax ay bx b_y).x := by
    simp only [vec_toward_internal, normalize_vector, harg]
    split_ifs
    · rw [← neg_div, neg_sub]
    · simp
  have hy : (vec_toward_internal sqrt bx b_y ax ay).y =
      -(vec_toward_internal sqrt ax ay bx b_y).y := by
    simp only [vec_toward_internal, normalize_vector, harg]
    split_ifs
    · rw [← neg_div, neg_sub]
    · simp
  refine ⟨?_, hx, hy, ?_⟩
  · simp only [Vector2.magnitude, harg]
  · simp only [vec_toward_c, hx, hy]

end KernelProperties

/-- The real square root is an exact square root. -/
theorem isExactSqrt_real : IsExactSqrt Real.sqrt :=
  fun x hx => ⟨Real.sqrt_nonneg x, Real.mul_self_sqrt hx⟩

/-- Witness of `normalize_vector_spec` over the reals: the vector `(3, 4)` has
magnitude above `1e-4` and is normalized to a vector of magnitude 1. -/
theorem normalize_vector_spec_witness :
    IsExactSqrt Real.sqrt ∧
    Vector2.magnitude Real.sqrt ⟨3, 4⟩ > 1 / 10000 ∧
    Vector2.magnitude Real.sqrt (normalize_vector Real.sqrt ⟨3, 4⟩) = 1 := by
  have hmag : Vector2.magnitude Real.sqrt ⟨3, 4⟩ > 1 / 10000 := by
    simp only [Vector2.magnitude, gt_iff_lt]
    rw [Real.lt_sqrt (by norm_num)]
    norm_num
  exact ⟨isExactSqrt_real, hmag,
    ((normalize_vector_spec Real.sqrt isExactSqrt_real ⟨3, 4⟩).1 hmag).1⟩

/-- Witness of `distance_c_spec` over the reals: the distance from `(0, 0)` to
`(3, 4)` is the square root of the squared distance 25. -/
theorem distance_c_spec_witness :
    IsExactSqrt Real.sqrt ∧
    distance_c Real.sqrt 0 0 3 4 = Real.sqrt (distance_squared_c (0 : ℝ) 0 3 4) ∧
    distance_squared_c (0 : ℝ) 0 3 4 = 25 := by
  refine ⟨isExactSqrt_real, (distance_c_spec Real.sqrt isExactSqrt_real 0 0 3 4).1, ?_⟩
  norm_num [distance_squared_c]

end GamePhysics
